import Mathlib

/-!
Verification of the ingredient resolution and recipe feasibility engine of
the supaniga repository (three Streamlit prototypes: `unnamed/part_000`,
`supaniga2.py`, `supaniga3.py`).  The pure decision logic of the prototypes
is embedded shallowly: Python strings become `String`, Python sets and dicts
of the configuration tables become literal `List`s in source order, the
`rapidfuzz` similarity scorer (an external library) is abstracted as a
parameter `sim : String → String → Nat` scoring in 0..100, and
`process.extractOne` is embedded as an explicit maximum over the catalog
keeping the first best-scoring entry.
-/

namespace Supaniga

/-- Similarity scorer abstraction for rapidfuzz `fuzz.WRatio`: a score in
0..100 for a query against a catalog entry. -/
abbrev StrSim := String → String → Nat

/-! ## Normalizer: `normalize_text` (all three files) -/

/-- Characters matched by Python's `str.strip()` and the regex `\s` on
ASCII text. -/
def isPySpace (c : Char) : Bool :=
  c = ' ' || c = '\t' || c = '\n' || c = '\r' || c = '\x0b' || c = '\x0c'

/-- Python `str.lower()` on ASCII characters. -/
def lowerChar (c : Char) : Char :=
  if 'A' ≤ c && c ≤ 'Z' then Char.ofNat (c.toNat + 32) else c

/-- Python `str.strip()`: drop leading and trailing whitespace. -/
def pyStrip (l : List Char) : List Char :=
  ((l.dropWhile isPySpace).reverse.dropWhile isPySpace).reverse

/-- Python `re.sub(r"\s+", " ", s)`: collapse each run of whitespace to a
single space.  The flag records whether the previous character was
whitespace. -/
def collapseWS : Bool → List Char → List Char
  | _, [] => []
  | prevSpace, c :: cs =>
    if isPySpace c then
      if prevSpace then collapseWS true cs else ' ' :: collapseWS true cs
    else c :: collapseWS false cs

/-- `normalize_text` of all three prototypes:
`re.sub(r"\s+", " ", s.strip().lower())`. -/
def normalize_text (s : String) : String :=
  String.mk (collapseWS false ((pyStrip s.data).map lowerChar))

example : normalize_text "  ToMATO  " = "tomato" := by decide
example : normalize_text "olive   OIL" = "olive oil" := by decide
example : normalize_text "   " = "" := by decide

/-! ## Association-list lookup (Python `dict.get`) -/

/-- Lookup in an association list, mirroring Python `dict.get`: the
configuration dicts of the prototypes are embedded as literal association
lists in source order. -/
def alookup {α : Type} (k : String) : List (String × α) → Option α
  | [] => none
  | (k', v) :: rest => if k = k' then some v else alookup k rest

theorem alookup_mem {α : Type} {k : String} {l : List (String × α)} {v : α}
    (h : alookup k l = some v) : (k, v) ∈ l := by
  induction l with
  | nil => simp [alookup] at h
  | cons p rest ih =>
    rcases p with ⟨k', v'⟩
    by_cases hk : k = k'
    · simp [alookup, hk] at h
      simp [hk, h]
    · simp [alookup, hk] at h
      exact List.mem_cons_of_mem _ (ih h)

/-! ## Best-scoring entry (Python `max` / rapidfuzz `extractOne`) -/

/-- Scan a list of (name, score) pairs keeping the current best; a later
entry wins only with a strictly greater score, so the first maximal entry
is kept — matching Python's `max` over insertion-ordered dicts and
rapidfuzz's `extractOne`. -/
def bestBy : List (String × Nat) → String × Nat → String × Nat
  | [], best => best
  | p :: ps, best => bestBy ps (if best.2 < p.2 then p else best)

theorem bestBy_ge_init (l : List (String × Nat)) (init : String × Nat) :
    init.2 ≤ (bestBy l init).2 := by
  induction l generalizing init with
  | nil => simp [bestBy]
  | cons p ps ih =>
    by_cases h : init.2 < p.2
    · simp only [bestBy, if_pos h]
      exact le_trans (le_of_lt h) (ih p)
    · simp only [bestBy, if_neg h]
      exact ih init

theorem bestBy_ge_mem (l : List (String × Nat)) (init : String × Nat) :
    ∀ p ∈ l, p.2 ≤ (bestBy l init).2 := by
  induction l generalizing init with
  | nil => intro p hp; simp at hp
  | cons q qs ih =>
    intro p hp
    rcases List.mem_cons.mp hp with h | h
    · subst h
      by_cases hlt : init.2 < p.2
      · simp only [bestBy, if_pos hlt]
        exact bestBy_ge_init qs p
      · simp only [bestBy, if_neg hlt]
        exact le_trans (le_of_not_lt hlt) (bestBy_ge_init qs init)
    · exact ih _ p h

theorem bestBy_mem (l : List (String × Nat)) (init : String × Nat) :
    bestBy l init = init ∨ bestBy l init ∈ l := by
  induction l generalizing init with
  | nil => left; simp [bestBy]
  | cons q qs ih =>
    by_cases hlt : init.2 < q.2
    · simp only [bestBy, if_pos hlt]
      rcases ih q with h | h
      · right; simp [h]
      · right; exact List.mem_cons_of_mem _ h
    · simp only [bestBy, if_neg hlt]
      rcases ih init with h | h
      · left; exact h
      · right; exact List.mem_cons_of_mem _ h

/-- Embedding of rapidfuzz `process.extractOne(q, catalog, scorer=WRatio)`:
the catalog entry with maximal similarity to `q` together with its score
(first maximal entry kept; `("", 0)` on an empty catalog, which the
prototypes never pass). -/
def extractOne (sim : StrSim) (q : String) : List String → String × Nat
  | [] => ("", 0)
  | c :: cs => bestBy (cs.map (fun x => (x, sim q x))) (c, sim q c)

theorem extractOne_max (sim : StrSim) (q : String) (catalog : List String) :
    ∀ c ∈ catalog, sim q c ≤ (extractOne sim q catalog).2 := by
  intro c hc
  cases catalog with
  | nil => simp at hc
  | cons x xs =>
    rcases List.mem_cons.mp hc with h | h
    · subst h
      simpa only [extractOne] using bestBy_ge_init (xs.map (fun y => (y, sim q y))) (c, sim q c)
    · simpa only [extractOne] using
        bestBy_ge_mem (xs.map (fun y => (y, sim q y))) (x, sim q x) (c, sim q c)
          (List.mem_map_of_mem _ h)

theorem extractOne_mem (sim : StrSim) (q : String) (x : String)
    (xs : List String) : (extractOne sim q (x :: xs)).1 ∈ x :: xs := by
  rcases bestBy_mem (xs.map (fun c => (c, sim q c))) (x, sim q x) with h | h
  · simp [extractOne, h]
  · rcases List.mem_map.mp h with ⟨c, hc, hpc⟩
    have : (extractOne sim q (x :: xs)).1 = c := by
      simp [extractOne, ← hpc]
    rw [this]
    exact List.mem_cons_of_mem _ hc

theorem extractOne_mem_of_ne_nil (sim : StrSim) (q : String)
    (catalog : List String) (h : catalog ≠ []) :
    (extractOne sim q catalog).1 ∈ catalog := by
  cases catalog with
  | nil => exact absurd rfl h
  | cons x xs => exact extractOne_mem sim q x xs

theorem extractOne_score (sim : StrSim) (q : String) (x : String)
    (xs : List String) :
    (extractOne sim q (x :: xs)).2 = sim q (extractOne sim q (x :: xs)).1 := by
  rcases bestBy_mem (xs.map (fun c => (c, sim q c))) (x, sim q x) with h | h
  · simp [extractOne, h]
  · rcases List.mem_map.mp h with ⟨c, hc, hpc⟩
    simp [extractOne, ← hpc]

/-! ## Matcher: `validate_ingredient` (part_000, supaniga2) /
`ingredient_valid` (supaniga3) -/

/-- Shared embedding of `validate_ingredient(name, valid_set)` (part_000
line 103, supaniga2 line 91) and `ingredient_valid(name)` (supaniga3 line
122): returns `(is_valid, normalized_canonical, suggestion)`.  An exact
catalog hit is accepted as-is; otherwise the best fuzzy match is accepted
at score ≥ 90, suggested at score 75..89, and rejected below. -/
def validate_ingredient (sim : StrSim) (name : String)
    (valid_set : List String) : Bool × String × Option String :=
  let q := normalize_text name
  if q = "" then (false, "", none)
  else if q ∈ valid_set then (true, q, none)
  else
    let ms := extractOne sim q valid_set
    if 90 ≤ ms.2 then (true, ms.1, none)
    else if 75 ≤ ms.2 then (false, "", some ms.1)
    else (false, "", none)

/-- C1: ingredient resolution against a catalog returns Rejected for an
empty normalized query; Exact for a catalog member regardless of any fuzzy
score; otherwise, with `(m, s)` the maximum-similarity catalog entry and
its score, FuzzyAccepted `(true, m, none)` iff `s ≥ 90`, FuzzySuggested
`(false, "", some m)` iff `75 ≤ s < 90`, and Rejected `(false, "", none)`
iff `s < 75`. -/
theorem C1_ingredient_resolution (sim : StrSim) (catalog : List String)
    (name : String) :
    (normalize_text name = "" →
      validate_ingredient sim name catalog = (false, "", none)) ∧
    (normalize_text name ≠ "" → normalize_text name ∈ catalog →
      validate_ingredient sim name catalog = (true, normalize_text name, none)) ∧
    (normalize_text name ≠ "" → normalize_text name ∉ catalog →
      (∀ c ∈ catalog,
        sim (normalize_text name) c ≤
          (extractOne sim (normalize_text name) catalog).2) ∧
      (validate_ingredient sim name catalog =
          (true, (extractOne sim (normalize_text name) catalog).1, none) ↔
        90 ≤ (extractOne sim (normalize_text name) catalog).2) ∧
      (validate_ingredient sim name catalog =
          (false, "", some (extractOne sim (normalize_text name) catalog).1) ↔
        75 ≤ (extractOne sim (normalize_text name) catalog).2 ∧
          (extractOne sim (normalize_text name) catalog).2 < 90) ∧
      (validate_ingredient sim name catalog = (false, "", none) ↔
        (extractOne sim (normalize_text name) catalog).2 < 75)) := by
  refine ⟨fun hq => ?_, fun hq hmem => ?_, fun hq hmem => ?_⟩
  · simp [validate_ingredient, hq]
  · simp [validate_ingredient, hq, hmem]
  · have hmax := extractOne_max sim (normalize_text name) catalog
    rcases Nat.lt_or_ge (extractOne sim (normalize_text name) catalog).2 75
      with h75 | h75
    · have n90 : ¬ 90 ≤ (extractOne sim (normalize_text name) catalog).2 := by
        omega
      have n75 : ¬ 75 ≤ (extractOne sim (normalize_text name) catalog).2 := by
        omega
      refine ⟨hmax, ?_, ?_, ?_⟩ <;>
        simp [validate_ingredient, hq, hmem, n90, n75] <;> omega
    · rcases Nat.lt_or_ge (extractOne sim (normalize_text name) catalog).2 90
        with h90 | h90
      · have n90 : ¬ 90 ≤ (extractOne sim (normalize_text name) catalog).2 := by
          omega
        refine ⟨hmax, ?_, ?_, ?_⟩ <;>
          simp [validate_ingredient, hq, hmem, n90, h75] <;> omega
      · refine ⟨hmax, ?_, ?_, ?_⟩ <;>
          simp [validate_ingredient, hq, hmem, h90] <;> omega

/-! ## Catalogs (the `VALID_INGREDIENTS` sets of the three prototypes, in
source order) -/

/-- `VALID_INGREDIENTS` of `unnamed/part_000` (lines 28-42). -/
def VALID_INGREDIENTS_app : List String := [
  "tomato","onion","garlic","ginger","carrot","potato","spinach","broccoli",
  "bell pepper","chili","lime","lemon","basil","cilantro","parsley","mint",
  "chicken","beef","pork","egg","tofu","tempeh","shrimp","salmon","tuna",
  "mushroom","chickpeas","lentils","beans","paneer",
  "rice","jasmine rice","basmati rice","noodles","pasta","spaghetti",
  "tortilla","bread","quinoa","couscous",
  "milk","butter","cream","yogurt","parmesan","cheddar","mozzarella",
  "olive oil","sesame oil","ghee","coconut milk",
  "soy sauce","fish sauce","oyster sauce","tomato paste","curry paste",
  "curry powder","turmeric","cumin","coriander","paprika","chili powder",
  "garam masala",
  "vinegar","balsamic vinegar","sugar","salt","pepper","honey","mustard",
  "miso","gochujang","sriracha","tahini",
  "peanut","peanuts","cashew","almond","walnut","sesame","nori","anchovy",
  "capers","olive","pickles"]

/-- `VALID_INGREDIENTS` of `supaniga2.py` (lines 74-86). -/
def VALID_INGREDIENTS_finder : List String := [
  "tomato","onion","garlic","ginger","carrot","potato","spinach","broccoli",
  "bell pepper","chili","lime","lemon","basil","cilantro","parsley","mint",
  "mushroom",
  "chicken","beef","pork","egg","tofu","tempeh","shrimp","salmon","tuna",
  "chickpeas","lentils","beans","paneer","ham","bacon","sausage",
  "rice","jasmine rice","basmati rice","noodles","pasta","spaghetti",
  "tortilla","bread","quinoa","couscous","udon","soba","ramen noodles",
  "potato",
  "milk","butter","cream","yogurt","parmesan","cheddar","mozzarella","feta",
  "gouda","brie","camembert","ricotta","pecorino","grana padano","provolone",
  "cream cheese","goat cheese","blue cheese",
  "olive oil","sesame oil","soy sauce","fish sauce","oyster sauce",
  "tomato paste","curry paste","curry powder","turmeric","cumin","coriander",
  "paprika","chili powder","garam masala",
  "vinegar","balsamic vinegar","sugar","salt","pepper","honey","mustard",
  "miso","gochujang","sriracha","tahini","coconut milk","anchovy","capers",
  "olive","pickles","nori"]

/-- `VALID_INGREDIENTS` of `supaniga3.py` (lines 77-89). -/
def VALID_INGREDIENTS_dishcovery : List String := [
  "salt","pepper","olive oil","butter","garlic","onion","ginger","lemon",
  "lime","chili","basil","parsley","cilantro",
  "pasta","spaghetti","penne","rice","bread","tortilla","noodles","udon",
  "ramen","quinoa","couscous","potato",
  "chicken","beef","pork","egg","eggs","tofu","tempeh","shrimp","salmon",
  "tuna","beans","chickpeas","lentils","mushroom","paneer",
  "tomato","tomato paste","tomato sauce","soy sauce","fish sauce",
  "oyster sauce","vinegar","balsamic vinegar","mustard","honey",
  "milk","cream","yogurt","cheese","parmesan","mozzarella","cheddar",
  "cream cheese",
  "spinach","broccoli","bell pepper","carrot","cucumber","olive","capers",
  "anchovy","miso","gochujang","sesame oil","tahini","coconut milk"]

theorem app_catalog_normalized :
    ∀ x ∈ VALID_INGREDIENTS_app, normalize_text x = x := by decide

theorem finder_catalog_normalized :
    ∀ x ∈ VALID_INGREDIENTS_finder, normalize_text x = x := by decide

theorem dishcovery_catalog_normalized :
    ∀ x ∈ VALID_INGREDIENTS_dishcovery, normalize_text x = x := by decide

/-- Resolution invariant for a single catalog: an accepted result's
canonical name is a catalog member fixed by normalization, a rejected
result's canonical field is the empty string, and a suggestion is a
catalog member. -/
theorem validate_invariant (sim : StrSim) (catalog : List String)
    (name : String) (hnorm : ∀ x ∈ catalog, normalize_text x = x) :
    ((validate_ingredient sim name catalog).1 = true →
      (validate_ingredient sim name catalog).2.1 ∈ catalog ∧
        normalize_text (validate_ingredient sim name catalog).2.1 =
          (validate_ingredient sim name catalog).2.1) ∧
    ((validate_ingredient sim name catalog).1 = false →
      (validate_ingredient sim name catalog).2.1 = "") ∧
    (∀ m, (validate_ingredient sim name catalog).2.2 = some m →
      m ∈ catalog) := by
  by_cases hq : normalize_text name = ""
  · simp [validate_ingredient, hq]
  · by_cases hmem : normalize_text name ∈ catalog
    · simp only [validate_ingredient, if_neg hq, if_pos hmem]
      exact ⟨fun _ => ⟨hmem, hnorm _ hmem⟩, fun h => Bool.noConfusion h,
        fun m h => Option.noConfusion h⟩
    · by_cases hnil : catalog = []
      · subst hnil
        simp [validate_ingredient, hq, extractOne]
      · have hmm : (extractOne sim (normalize_text name) catalog).1 ∈ catalog :=
          extractOne_mem_of_ne_nil sim (normalize_text name) catalog hnil
        by_cases h90 : 90 ≤ (extractOne sim (normalize_text name) catalog).2
        · simp only [validate_ingredient, if_neg hq, if_neg hmem, if_pos h90]
          exact ⟨fun _ => ⟨hmm, hnorm _ hmm⟩, fun h => Bool.noConfusion h,
            fun m h => Option.noConfusion h⟩
        · by_cases h75 : 75 ≤ (extractOne sim (normalize_text name) catalog).2
          · simp only [validate_ingredient, if_neg hq, if_neg hmem,
              if_neg h90, if_pos h75]
            refine ⟨fun h => Bool.noConfusion h, fun _ => trivial, ?_⟩
            intro m hm
            simp only [Option.some.injEq] at hm
            simpa [← hm] using hmm
          · simp only [validate_ingredient, if_neg hq, if_neg hmem,
              if_neg h90, if_neg h75]
            exact ⟨fun h => Bool.noConfusion h, fun _ => trivial,
              fun m h => Option.noConfusion h⟩

/-- C10: whenever resolution accepts a query, the returned canonical name
is a member of the catalog `VALID_INGREDIENTS` of the respective prototype
and is itself normalized; whenever it rejects, the canonical field is the
empty string; and any "did you mean" suggestion is also a catalog
member. -/
theorem C10_resolution_catalog_invariant (sim : StrSim) (name : String) :
    (((validate_ingredient sim name VALID_INGREDIENTS_app).1 = true →
      (validate_ingredient sim name VALID_INGREDIENTS_app).2.1 ∈
          VALID_INGREDIENTS_app ∧
        normalize_text (validate_ingredient sim name VALID_INGREDIENTS_app).2.1 =
          (validate_ingredient sim name VALID_INGREDIENTS_app).2.1) ∧
    ((validate_ingredient sim name VALID_INGREDIENTS_app).1 = false →
      (validate_ingredient sim name VALID_INGREDIENTS_app).2.1 = "") ∧
    (∀ m, (validate_ingredient sim name VALID_INGREDIENTS_app).2.2 = some m →
      m ∈ VALID_INGREDIENTS_app)) ∧
    (((validate_ingredient sim name VALID_INGREDIENTS_finder).1 = true →
      (validate_ingredient sim name VALID_INGREDIENTS_finder).2.1 ∈
          VALID_INGREDIENTS_finder ∧
        normalize_text (validate_ingredient sim name VALID_INGREDIENTS_finder).2.1 =
          (validate_ingredient sim name VALID_INGREDIENTS_finder).2.1) ∧
    ((validate_ingredient sim name VALID_INGREDIENTS_finder).1 = false →
      (validate_ingredient sim name VALID_INGREDIENTS_finder).2.1 = "") ∧
    (∀ m, (validate_ingredient sim name VALID_INGREDIENTS_finder).2.2 = some m →
      m ∈ VALID_INGREDIENTS_finder)) ∧
    (((validate_ingredient sim name VALID_INGREDIENTS_dishcovery).1 = true →
      (validate_ingredient sim name VALID_INGREDIENTS_dishcovery).2.1 ∈
          VALID_INGREDIENTS_dishcovery ∧
        normalize_text (validate_ingredient sim name VALID_INGREDIENTS_dishcovery).2.1 =
          (validate_ingredient sim name VALID_INGREDIENTS_dishcovery).2.1) ∧
    ((validate_ingredient sim name VALID_INGREDIENTS_dishcovery).1 = false →
      (validate_ingredient sim name VALID_INGREDIENTS_dishcovery).2.1 = "") ∧
    (∀ m, (validate_ingredient sim name VALID_INGREDIENTS_dishcovery).2.2 = some m →
      m ∈ VALID_INGREDIENTS_dishcovery)) :=
  ⟨validate_invariant sim VALID_INGREDIENTS_app name app_catalog_normalized,
   validate_invariant sim VALID_INGREDIENTS_finder name finder_catalog_normalized,
   validate_invariant sim VALID_INGREDIENTS_dishcovery name
     dishcovery_catalog_normalized⟩

/-! ## Restriction Engine: `SUBSTITUTIONS`, `RESTRICTION_RULES`,
`apply_restrictions` (part_000 lines 45-67 and 141-165) -/

/-- `SUBSTITUTIONS` (part_000 lines 45-59): per forbidden ingredient, the
substitution available under each restriction, in source order. -/
def SUBSTITUTIONS : List (String × List (String × String)) := [
  ("butter", [("vegan", "olive oil"), ("dairy_free", "olive oil")]),
  ("milk", [("vegan", "oat milk"), ("dairy_free", "oat milk")]),
  ("cream", [("vegan", "coconut cream"), ("dairy_free", "coconut cream")]),
  ("yogurt", [("vegan", "soy yogurt"), ("dairy_free", "soy yogurt")]),
  ("parmesan", [("vegan", "nutritional yeast"), ("dairy_free", "nutritional yeast")]),
  ("cheddar", [("vegan", "vegan cheddar"), ("dairy_free", "vegan cheddar")]),
  ("mozzarella", [("vegan", "vegan mozzarella"), ("dairy_free", "vegan mozzarella")]),
  ("fish sauce", [("vegan", "soy sauce + kombu"), ("vegetarian", "soy sauce + kombu")]),
  ("oyster sauce", [("vegan", "mushroom sauce"), ("vegetarian", "mushroom sauce")]),
  ("chicken", [("vegan", "tofu"), ("vegetarian", "paneer")]),
  ("beef", [("vegan", "tempeh"), ("vegetarian", "mushroom")]),
  ("pork", [("vegan", "tofu"), ("vegetarian", "mushroom")]),
  ("shrimp", [("vegan", "tofu"), ("vegetarian", "mushroom")])]

/-- `RESTRICTION_RULES` (part_000 lines 61-67): per restriction name, the
forbidden-ingredient set. -/
def RESTRICTION_RULES : List (String × List String) := [
  ("vegan", ["chicken","beef","pork","shrimp","fish sauce","oyster sauce",
    "milk","butter","cream","yogurt","parmesan","cheddar","mozzarella","egg"]),
  ("vegetarian", ["chicken","beef","pork","shrimp","fish sauce","oyster sauce"]),
  ("dairy_free", ["milk","butter","cream","yogurt","parmesan","cheddar","mozzarella"]),
  ("nut_free", ["peanut","peanuts","cashew","almond","walnut"]),
  ("gluten_free", ["pasta","spaghetti","bread","tortilla"])]

/-- Union of the forbidden sets of the active restrictions:
`forbids |= RESTRICTION_RULES.get(r, {}).get("forbid", set())` over the
caller's restriction list. -/
def forbidsOf (restrictions : List String) : List String :=
  restrictions.flatMap (fun r => (alookup r RESTRICTION_RULES).getD [])

/-- Scan the active restrictions in caller order and return the first
substitution configured for `ing`:
`for r in restrictions: sub = SUBSTITUTIONS.get(ing, {}).get(r); if sub: break`. -/
def firstSub (ing : String) (restrictions : List String) : Option String :=
  restrictions.findSome? (fun r => alookup r ((alookup ing SUBSTITUTIONS).getD []))

/-- Change log entry: the structural content of the note strings emitted by
`apply_restrictions` (part_000 lines 158 and 162) — `Replaced` for a
substituted forbidden ingredient, `Removed` for a dropped one. -/
inductive Change : Type where
  | Replaced (original replacement : String) : Change
  | Removed (original : String) : Change
deriving DecidableEq, Repr

/-- `apply_restrictions(ings, restrictions)` (part_000 lines 141-165): each
ingredient in the union of the active forbidden sets is replaced by its
first available substitution or dropped (`out[i] = None` then filtered),
with a note per change; everything else passes through unchanged in input
order. -/
def apply_restrictions (ings : List String) (restrictions : List String) :
    List String × List Change :=
  let forbids := forbidsOf restrictions
  ings.foldr (fun ing acc =>
    if ing ∈ forbids then
      match firstSub ing restrictions with
      | some sub => (sub :: acc.1, Change.Replaced ing sub :: acc.2)
      | none => (acc.1, Change.Removed ing :: acc.2)
    else (ing :: acc.1, acc.2)) ([], [])

example :
    apply_restrictions ["butter", "chicken"] ["vegan"] =
      (["olive oil", "tofu"],
       [Change.Replaced "butter" "olive oil", Change.Replaced "chicken" "tofu"]) := by
  decide

example :
    apply_restrictions ["tomato", "egg", "chicken"] ["vegetarian", "vegan"] =
      (["tomato", "paneer"],
       [Change.Removed "egg", Change.Replaced "chicken" "paneer"]) := by
  decide

theorem apply_restrictions_nil (restrictions : List String) :
    apply_restrictions [] restrictions = ([], []) := rfl

theorem apply_restrictions_cons (ing : String)
    (ings restrictions : List String) :
    apply_restrictions (ing :: ings) restrictions =
      (if ing ∈ forbidsOf restrictions then
        match firstSub ing restrictions with
        | some sub =>
            (sub :: (apply_restrictions ings restrictions).1,
             Change.Replaced ing sub :: (apply_restrictions ings restrictions).2)
        | none =>
            ((apply_restrictions ings restrictions).1,
             Change.Removed ing :: (apply_restrictions ings restrictions).2)
      else
        (ing :: (apply_restrictions ings restrictions).1,
         (apply_restrictions ings restrictions).2)) := rfl

/-- Characterisation of `List.findSome?` as "the first element on which `f`
fires": used to state the restriction-priority order of `firstSub`. -/
theorem findSome?_first {α β : Type} (f : α → Option β) (l : List α) (b : β) :
    l.findSome? f = some b ↔
      ∃ pre x post, l = pre ++ x :: post ∧ f x = some b ∧
        ∀ y ∈ pre, f y = none := by
  induction l with
  | nil => simp
  | cons a as ih =>
    rw [List.findSome?_cons]
    cases hfa : f a with
    | some v =>
      simp only [Option.some.injEq]
      constructor
      · intro hv
        exact ⟨[], a, as, by simp, by rw [hfa, hv], by simp⟩
      · rintro ⟨pre, x, post, hdec, hfx, hpre⟩
        cases pre with
        | nil =>
          simp only [List.nil_append, List.cons.injEq] at hdec
          rw [hdec.1] at hfa
          rw [hfa] at hfx
          exact (Option.some.injEq _ _).mp hfx
        | cons y ys =>
          simp only [List.cons_append, List.cons.injEq] at hdec
          have : f a = none := by
            rw [hdec.1] at hfa ⊢
            exact hpre y (by simp)
          rw [this] at hfa
          exact Option.noConfusion hfa
    | none =>
      rw [ih]
      constructor
      · rintro ⟨pre, x, post, hdec, hfx, hpre⟩
        refine ⟨a :: pre, x, post, by rw [hdec]; rfl, hfx, ?_⟩
        intro y hy
        rcases List.mem_cons.mp hy with h | h
        · rw [h]; exact hfa
        · exact hpre y h
      · rintro ⟨pre, x, post, hdec, hfx, hpre⟩
        cases pre with
        | nil =>
          simp only [List.nil_append, List.cons.injEq] at hdec
          rw [hdec.1] at hfa
          rw [hfa] at hfx
          exact Option.noConfusion hfx
        | cons y ys =>
          simp only [List.cons_append, List.cons.injEq] at hdec
          exact ⟨ys, x, post, hdec.2, hfx, fun z hz => hpre z (by simp [hz])⟩

theorem apply_restrictions_adjusted (ings restrictions : List String) :
    (apply_restrictions ings restrictions).1 =
      ings.filterMap (fun ing =>
        if ing ∈ forbidsOf restrictions then firstSub ing restrictions
        else some ing) := by
  induction ings with
  | nil => rfl
  | cons ing rest ih =>
    rw [apply_restrictions_cons, List.filterMap_cons]
    by_cases hf : ing ∈ forbidsOf restrictions
    · cases hs : firstSub ing restrictions with
      | some sub => simp [hf, hs, ih]
      | none => simp [hf, hs, ih]
    · simp [hf, ih]

theorem apply_restrictions_log (ings restrictions : List String) :
    (apply_restrictions ings restrictions).2 =
      ings.filterMap (fun ing =>
        if ing ∈ forbidsOf restrictions then
          some (match firstSub ing restrictions with
            | some sub => Change.Replaced ing sub
            | none => Change.Removed ing)
        else none) := by
  induction ings with
  | nil => rfl
  | cons ing rest ih =>
    rw [apply_restrictions_cons, List.filterMap_cons]
    by_cases hf : ing ∈ forbidsOf restrictions
    · cases hs : firstSub ing restrictions with
      | some sub => simp [hf, hs, ih]
      | none => simp [hf, hs, ih]
    · simp [hf, ih]

/-- C3: the restriction engine keeps every ingredient outside the union of
the active forbidden sets unchanged; each forbidden ingredient is replaced
via the first active restriction (in caller order) holding a substitution
entry for it, logging `Replaced`, and dropped with a `Removed` log entry
when none does; output order is input order with removed entries omitted;
and `apply(["butter","chicken"], ["vegan"])` yields
`["olive oil","tofu"]` with log `Replaced butter → olive oil` then
`Replaced chicken → tofu`. -/
theorem C3_restriction_rewrite (ings restrictions : List String) :
    ((apply_restrictions ings restrictions).1 =
      ings.filterMap (fun ing =>
        if ing ∈ forbidsOf restrictions then firstSub ing restrictions
        else some ing)) ∧
    ((apply_restrictions ings restrictions).2 =
      ings.filterMap (fun ing =>
        if ing ∈ forbidsOf restrictions then
          some (match firstSub ing restrictions with
            | some sub => Change.Replaced ing sub
            | none => Change.Removed ing)
        else none)) ∧
    (∀ ing, ing ∈ forbidsOf restrictions ↔
      ∃ r ∈ restrictions, ing ∈ (alookup r RESTRICTION_RULES).getD []) ∧
    (∀ ing sub, firstSub ing restrictions = some sub ↔
      ∃ pre r post, restrictions = pre ++ r :: post ∧
        alookup r ((alookup ing SUBSTITUTIONS).getD []) = some sub ∧
        ∀ r' ∈ pre, alookup r' ((alookup ing SUBSTITUTIONS).getD []) = none) ∧
    apply_restrictions ["butter", "chicken"] ["vegan"] =
      (["olive oil", "tofu"],
       [Change.Replaced "butter" "olive oil",
        Change.Replaced "chicken" "tofu"]) := by
  refine ⟨apply_restrictions_adjusted ings restrictions,
    apply_restrictions_log ings restrictions, ?_, ?_, by decide⟩
  · intro ing
    simp [forbidsOf, List.mem_flatMap]
  · intro ing sub
    exact findSome?_first _ restrictions sub

/-- Configuration safety check: no substitution target appears in any
restriction's forbidden set. -/
theorem substitution_targets_not_forbidden :
    ∀ p ∈ SUBSTITUTIONS, ∀ q ∈ p.2, ∀ rule ∈ RESTRICTION_RULES,
      q.2 ∉ rule.2 := by decide

theorem firstSub_not_forbidden (ing : String) (restrictions : List String)
    (sub : String) (h : firstSub ing restrictions = some sub) :
    ∀ restrictions' : List String, sub ∉ forbidsOf restrictions' := by
  intro restrictions' hmem
  rcases (findSome?_first _ restrictions sub).mp h with
    ⟨pre, r, post, _, hfx, _⟩
  cases hing : alookup ing SUBSTITUTIONS with
  | none => rw [hing] at hfx; exact Option.noConfusion hfx
  | some pairs =>
    rw [hing] at hfx
    simp only [Option.getD_some] at hfx
    have hpair : (r, sub) ∈ pairs := alookup_mem hfx
    have hent : (ing, pairs) ∈ SUBSTITUTIONS := alookup_mem hing
    rcases List.mem_flatMap.mp hmem with ⟨r', hr', hin⟩
    cases hrule : alookup r' RESTRICTION_RULES with
    | none => rw [hrule] at hin; simp at hin
    | some fl =>
      rw [hrule] at hin
      simp only [Option.getD_some] at hin
      exact substitution_targets_not_forbidden (ing, pairs) hent (r, sub)
        hpair (r', fl) (alookup_mem hrule) hin

theorem apply_restrictions_output_clean (ings restrictions : List String) :
    ∀ x ∈ (apply_restrictions ings restrictions).1,
      x ∉ forbidsOf restrictions := by
  induction ings with
  | nil => intro x hx; simp [apply_restrictions_nil] at hx
  | cons ing rest ih =>
    intro x hx
    rw [apply_restrictions_cons] at hx
    by_cases hf : ing ∈ forbidsOf restrictions
    · rw [if_pos hf] at hx
      cases hs : firstSub ing restrictions with
      | some sub =>
        rw [hs] at hx
        simp only [List.mem_cons] at hx
        rcases hx with hx | hx
        · rw [hx]; exact firstSub_not_forbidden ing restrictions sub hs _
        · exact ih x hx
      | none =>
        rw [hs] at hx
        exact ih x hx
    · rw [if_neg hf] at hx
      simp only [List.mem_cons] at hx
      rcases hx with hx | hx
      · rw [hx]; exact hf
      · exact ih x hx

theorem apply_restrictions_of_clean (l restrictions : List String)
    (h : ∀ x ∈ l, x ∉ forbidsOf restrictions) :
    apply_restrictions l restrictions = (l, []) := by
  induction l with
  | nil => rfl
  | cons x rest ih =>
    rw [apply_restrictions_cons,
      if_neg (h x (List.mem_cons_self x rest)),
      ih (fun y hy => h y (List.mem_cons_of_mem x hy))]

/-- C5: applying the restriction engine twice equals applying it once — the
second pass returns the first pass's adjusted list unchanged with an empty
change log, no ingredient forbidden under the restriction list survives one
pass, and every substitution target is itself not forbidden. -/
theorem C5_restriction_idempotent (S R : List String)
    (_hconf : ∀ r ∈ R,
      r ∈ ["vegan", "vegetarian", "dairy_free", "nut_free", "gluten_free"]) :
    apply_restrictions (apply_restrictions S R).1 R =
      ((apply_restrictions S R).1, []) ∧
    (∀ x ∈ (apply_restrictions S R).1, x ∉ forbidsOf R) ∧
    (∀ ing sub, firstSub ing R = some sub → sub ∉ forbidsOf R) := by
  refine ⟨?_, apply_restrictions_output_clean S R,
    fun ing sub h => firstSub_not_forbidden ing R sub h R⟩
  exact apply_restrictions_of_clean _ R (apply_restrictions_output_clean S R)

/-- Witness for C5 at `S = ["butter","chicken"]`, `R = ["vegan"]`. -/
theorem C5_restriction_idempotent_witness :
    apply_restrictions
        (apply_restrictions ["butter", "chicken"] ["vegan"]).1 ["vegan"] =
      ((apply_restrictions ["butter", "chicken"] ["vegan"]).1, []) ∧
    (∀ x ∈ (apply_restrictions ["butter", "chicken"] ["vegan"]).1,
      x ∉ forbidsOf ["vegan"]) ∧
    (∀ ing sub, firstSub ing ["vegan"] = some sub →
      sub ∉ forbidsOf ["vegan"]) :=
  C5_restriction_idempotent ["butter", "chicken"] ["vegan"] (by decide)

/-! ## Sufficiency Evaluator and Suggestion Generator of supaniga3
(`CATS`, `BAD_COMBOS`, `SUGGESTIONS`, `classify_categories`,
`has_bad_combo`, `need_more_for_cook`, lines 92-188) -/

/-- `CATS` (supaniga3 lines 92-99): ingredient categories, in source
order. -/
def CATS : List (String × List String) := [
  ("aromatic", ["garlic", "onion", "ginger"]),
  ("protein", ["chicken", "beef", "pork", "egg", "eggs", "tofu", "tempeh",
    "shrimp", "salmon", "tuna", "beans", "chickpeas", "lentils", "mushroom",
    "paneer"]),
  ("carb", ["pasta", "spaghetti", "penne", "rice", "noodles", "udon",
    "ramen", "bread", "tortilla", "quinoa", "couscous", "potato"]),
  ("liquid", ["olive oil", "sesame oil", "milk", "cream", "yogurt",
    "coconut milk", "tomato sauce"]),
  ("flavor", ["salt", "pepper", "soy sauce", "fish sauce", "oyster sauce",
    "vinegar", "balsamic vinegar", "mustard", "honey", "tomato paste",
    "cheese", "parmesan", "mozzarella", "cheddar"]),
  ("veg", ["tomato", "spinach", "broccoli", "bell pepper", "carrot",
    "cucumber"])]

/-- `BAD_COMBOS` (supaniga3 lines 102-106): ingredient subsets flagged as
inedible on their own. -/
def BAD_COMBOS : List (List String) := [
  ["milk", "pasta"],
  ["rice", "milk"],
  ["tuna", "milk"]]

/-- `SUGGESTIONS` (supaniga3 lines 108-116): remedy lists per suggestion
key. -/
def SUGGESTIONS : List (String × List String) := [
  ("milk+pasta", ["olive oil", "garlic", "parmesan", "black pepper"]),
  ("needs_aromatic", ["garlic", "onion"]),
  ("needs_fat", ["olive oil", "butter", "sesame oil"]),
  ("needs_flavor", ["salt", "pepper", "soy sauce", "tomato paste", "parmesan"]),
  ("needs_protein", ["chicken", "tofu", "eggs", "shrimp", "mushroom"]),
  ("needs_carb", ["rice", "pasta", "bread", "noodles"]),
  ("needs_liquid", ["olive oil", "coconut milk", "tomato sauce", "cream"])]

/-- `classify_categories(ings)` (supaniga3 lines 148-154): the set of
category names whose item set meets the ingredient list. -/
def classify_categories (ings : List String) : List String :=
  (CATS.filter (fun p => p.2.any (fun x => decide (x ∈ ings)))).map
    (fun p => p.1)

/-- `has_bad_combo(ings)` (supaniga3 lines 156-161): the first bad combo
fully contained in the ingredient list, if any. -/
def has_bad_combo (ings : List String) : Option (List String) :=
  BAD_COMBOS.find? (fun bad => bad.all (fun x => decide (x ∈ ings)))

/-- Deduplication preserving first occurrence (supaniga3 line 187:
`[x for x in suggestions if not (x in seen or seen.add(x))]`); `seen` is
the accumulator of already-kept entries. -/
def dedupFirst (seen : List String) : List String → List String
  | [] => []
  | x :: xs =>
    if x ∈ seen then dedupFirst seen xs
    else x :: dedupFirst (x :: seen) xs

/-- `need_more_for_cook(ings)` (supaniga3 lines 163-188): returns
`(enough, reasons, suggestions)`.  The four requirement clauses are checked
in source order (aromatic-or-veg, protein-or-carb, flavor, fat/liquid with
its nested special-casing of olive oil, butter and sesame oil); the
suggestion list is the bad-combo remedy (the `"milk+pasta"` entry — the
code looks that single key up whenever any bad combo fires) followed by
each missing reason's remedy list, deduplicated first-seen. -/
def need_more_for_cook (ings : List String) :
    Bool × List String × List String :=
  let cats := classify_categories ings
  let reasons : List String :=
    (if ¬ ("aromatic" ∈ cats ∨ "veg" ∈ cats) then ["needs_aromatic"]
     else []) ++
    (if ¬ ("protein" ∈ cats ∨ "carb" ∈ cats) then ["needs_protein"]
     else []) ++
    (if "flavor" ∉ cats then ["needs_flavor"] else []) ++
    (if ¬ ("liquid" ∈ cats ∨ "fat" ∈ cats ∨ "olive oil" ∈ ings) then
      (if "liquid" ∉ cats ∧ "olive oil" ∉ ings ∧ "butter" ∉ ings ∧
          "sesame oil" ∉ ings then ["needs_fat"] else [])
     else [])
  let enough := reasons.isEmpty
  let bad := has_bad_combo ings
  let suggestions :=
    (if bad.isSome then (alookup "milk+pasta" SUGGESTIONS).getD []
     else []) ++
    reasons.flatMap (fun r => (alookup r SUGGESTIONS).getD [])
  (enough, reasons, dedupFirst [] suggestions)

example :
    need_more_for_cook ["chicken"] =
      (false, ["needs_aromatic", "needs_flavor", "needs_fat"],
       ["garlic", "onion", "salt", "pepper", "soy sauce", "tomato paste",
        "parmesan", "olive oil", "butter", "sesame oil"]) := by decide

example :
    need_more_for_cook ["garlic", "chicken", "salt", "butter"] =
      (true, [], []) := by decide

example :
    need_more_for_cook ["milk", "pasta"] =
      (false, ["needs_aromatic", "needs_flavor"],
       ["olive oil", "garlic", "parmesan", "black pepper", "onion", "salt",
        "pepper", "soy sauce", "tomato paste"]) := by decide

/-- Membership of an ingredient in a category of the `CATS` table — the
notion "categorized `cat`" used by the sufficiency claims. -/
def inCat (cat ing : String) : Prop := ing ∈ (alookup cat CATS).getD []

instance (cat ing : String) : Decidable (inCat cat ing) :=
  inferInstanceAs (Decidable (ing ∈ (alookup cat CATS).getD []))

theorem cats_alookup_self : ∀ p ∈ CATS, alookup p.1 CATS = some p.2 := by
  decide

theorem mem_classify (ings : List String) (cat : String) :
    cat ∈ classify_categories ings ↔
      ∃ x ∈ (alookup cat CATS).getD [], x ∈ ings := by
  constructor
  · intro h
    rcases List.mem_map.mp h with ⟨p, hp, hp1⟩
    rcases List.mem_filter.mp hp with ⟨hpc, hany⟩
    rcases List.any_eq_true.mp hany with ⟨x, hx, hxi⟩
    have hl := cats_alookup_self p hpc
    rw [hp1] at hl
    rw [hl]
    exact ⟨x, hx, of_decide_eq_true hxi⟩
  · rintro ⟨x, hx, hxi⟩
    cases h : alookup cat CATS with
    | none => rw [h] at hx; simp at hx
    | some items =>
      rw [h] at hx
      simp only [Option.getD_some] at hx
      refine List.mem_map.mpr ⟨(cat, items), List.mem_filter.mpr
        ⟨alookup_mem h, List.any_eq_true.mpr ⟨x, hx, decide_eq_true hxi⟩⟩, rfl⟩

theorem classify_inCat (ings : List String) (cat : String) :
    cat ∈ classify_categories ings ↔ ∃ i ∈ ings, inCat cat i := by
  rw [mem_classify]
  constructor
  · rintro ⟨x, hx, hxi⟩; exact ⟨x, hxi, hx⟩
  · rintro ⟨i, hi, hc⟩; exact ⟨i, hc, hi⟩

theorem classify_or_inCat (ings : List String) (c1 c2 : String) :
    (c1 ∈ classify_categories ings ∨ c2 ∈ classify_categories ings) ↔
      ∃ i ∈ ings, inCat c1 i ∨ inCat c2 i := by
  rw [classify_inCat, classify_inCat]
  constructor
  · rintro (⟨i, hi, h⟩ | ⟨i, hi, h⟩)
    · exact ⟨i, hi, Or.inl h⟩
    · exact ⟨i, hi, Or.inr h⟩
  · rintro ⟨i, hi, h | h⟩
    · exact Or.inl ⟨i, hi, h⟩
    · exact Or.inr ⟨i, hi, h⟩

theorem alookup_fat_cats : alookup "fat" CATS = none := by decide

theorem not_inCat_fat (i : String) : ¬ inCat "fat" i := by
  intro h
  rw [inCat, alookup_fat_cats] at h
  simp at h

theorem fat_not_classified (ings : List String) :
    "fat" ∉ classify_categories ings := by
  rw [classify_inCat]
  rintro ⟨i, _, hc⟩
  exact not_inCat_fat i hc

theorem inCat_liquid_iff (i : String) :
    inCat "liquid" i ↔ i ∈ ["olive oil", "sesame oil", "milk", "cream",
      "yogurt", "coconut milk", "tomato sauce"] := by
  rw [inCat]
  rw [show alookup "liquid" CATS = some ["olive oil", "sesame oil", "milk",
    "cream", "yogurt", "coconut milk", "tomato sauce"] from by decide]
  exact Iff.rfl

/-- The fat/liquid clause as the code decides it: the nested ifs of
supaniga3 lines 173-176 add `needs_fat` exactly when no liquid-categorized
ingredient and no butter is present. -/
theorem fat_block_eq (ings : List String) :
    (if ¬ ("liquid" ∈ classify_categories ings ∨
          "fat" ∈ classify_categories ings ∨ "olive oil" ∈ ings) then
      (if "liquid" ∉ classify_categories ings ∧ "olive oil" ∉ ings ∧
          "butter" ∉ ings ∧ "sesame oil" ∉ ings then ["needs_fat"] else [])
     else ([] : List String)) =
      (if (∃ i ∈ ings, inCat "liquid" i ∨ inCat "fat" i) ∨ "butter" ∈ ings
       then [] else ["needs_fat"]) := by
  by_cases hl : "liquid" ∈ classify_categories ings
  · have hd : (∃ i ∈ ings, inCat "liquid" i ∨ inCat "fat" i) ∨
        "butter" ∈ ings :=
      Or.inl (by
        rcases (classify_inCat ings "liquid").mp hl with ⟨i, hi, hc⟩
        exact ⟨i, hi, Or.inl hc⟩)
    rw [if_neg (by intro h; exact h (Or.inl hl)), if_pos hd]
  · by_cases hoo : "olive oil" ∈ ings
    · have hd : (∃ i ∈ ings, inCat "liquid" i ∨ inCat "fat" i) ∨
          "butter" ∈ ings :=
        Or.inl ⟨"olive oil", hoo,
          Or.inl ((inCat_liquid_iff "olive oil").mpr (by decide))⟩
      rw [if_neg (by intro h; exact h (Or.inr (Or.inr hoo))), if_pos hd]
    · have hso : "sesame oil" ∉ ings := by
        intro h
        exact hl ((classify_inCat ings "liquid").mpr
          ⟨"sesame oil", h, (inCat_liquid_iff "sesame oil").mpr (by decide)⟩)
      have hbig : ¬ ("liquid" ∈ classify_categories ings ∨
          "fat" ∈ classify_categories ings ∨ "olive oil" ∈ ings) := by
        rintro (h | h | h)
        · exact hl h
        · exact fat_not_classified ings h
        · exact hoo h
      rw [if_pos hbig]
      by_cases hb : "butter" ∈ ings
      · rw [if_neg (by rintro ⟨_, _, h, _⟩; exact h hb),
          if_pos (Or.inr hb)]
      · have hnd : ¬ ((∃ i ∈ ings, inCat "liquid" i ∨ inCat "fat" i) ∨
            "butter" ∈ ings) := by
          rintro (⟨i, hi, hc | hc⟩ | h)
          · exact hl ((classify_inCat ings "liquid").mpr ⟨i, hi, hc⟩)
          · exact not_inCat_fat i hc
          · exact hb h
        rw [if_pos ⟨hl, hoo, hb, hso⟩, if_neg hnd]

/-- Sufficiency condition exactly as claim C2 words it: at least one
ingredient categorized aromatic-or-veg, one categorized protein-or-carb,
one categorized flavor, and one categorized liquid-or-fat (categories read
from the `CATS` table; the table has no `fat` category, so that disjunct
is never met). -/
def claimedSufficient (ings : List String) : Prop :=
  (∃ i ∈ ings, inCat "aromatic" i ∨ inCat "veg" i) ∧
  (∃ i ∈ ings, inCat "protein" i ∨ inCat "carb" i) ∧
  (∃ i ∈ ings, inCat "flavor" i) ∧
  (∃ i ∈ ings, inCat "liquid" i ∨ inCat "fat" i)

instance (ings : List String) : Decidable (claimedSufficient ings) :=
  inferInstanceAs (Decidable (_ ∧ _ ∧ _ ∧ _))

/-- C2 counterexample: on `["garlic","chicken","salt","butter"]` the code
reports `enough = true`, yet the set has no ingredient categorized liquid
or fat — `butter` is in no category of `CATS` and only the code's nested
special-case (supaniga3 line 175) lets it satisfy the fat/liquid clause —
so the claimed equivalence "sufficient iff ... at least one categorized
liquid-or-fat" fails here. -/
theorem C2_sufficiency_counterexample :
    (need_more_for_cook ["garlic", "chicken", "salt", "butter"]).1 = true ∧
    ¬ claimedSufficient ["garlic", "chicken", "salt", "butter"] := by decide

/-- C2 (amended): the evaluator returns `sufficient = true` iff the set has
an aromatic-or-veg ingredient, a protein-or-carb ingredient, a flavor
ingredient, and a liquid-or-fat ingredient or butter (the code's explicit
fat fallback; olive oil and sesame oil are already categorized liquid);
`missing` lists exactly the unmet clauses in policy order; and
`["chicken"]` is insufficient with the aromatic/veg, flavor and liquid/fat
clauses among the missing ones. -/
theorem clause_block_or (ings : List String) (c1 c2 key : String) :
    (if ¬ (c1 ∈ classify_categories ings ∨ c2 ∈ classify_categories ings)
      then [key] else []) =
      (if ∃ i ∈ ings, inCat c1 i ∨ inCat c2 i then [] else [key]) := by
  by_cases h : ∃ i ∈ ings, inCat c1 i ∨ inCat c2 i
  · rw [if_neg (not_not_intro ((classify_or_inCat ings c1 c2).mpr h)),
      if_pos h]
  · rw [if_pos (fun hc => h ((classify_or_inCat ings c1 c2).mp hc)),
      if_neg h]

theorem clause_block_single (ings : List String) (c key : String) :
    (if c ∉ classify_categories ings then [key] else []) =
      (if ∃ i ∈ ings, inCat c i then [] else [key]) := by
  by_cases h : ∃ i ∈ ings, inCat c i
  · rw [if_neg (not_not_intro ((classify_inCat ings c).mpr h)), if_pos h]
  · rw [if_pos (fun hc => h ((classify_inCat ings c).mp hc)), if_neg h]

theorem need_more_reasons_eq (ings : List String) :
    (need_more_for_cook ings).2.1 =
      (if ∃ i ∈ ings, inCat "aromatic" i ∨ inCat "veg" i then []
       else ["needs_aromatic"]) ++
      (if ∃ i ∈ ings, inCat "protein" i ∨ inCat "carb" i then []
       else ["needs_protein"]) ++
      (if ∃ i ∈ ings, inCat "flavor" i then [] else ["needs_flavor"]) ++
      (if (∃ i ∈ ings, inCat "liquid" i ∨ inCat "fat" i) ∨ "butter" ∈ ings
       then [] else ["needs_fat"]) := by
  have h0 : (need_more_for_cook ings).2.1 =
      (if ¬ ("aromatic" ∈ classify_categories ings ∨
          "veg" ∈ classify_categories ings) then ["needs_aromatic"]
       else []) ++
      (if ¬ ("protein" ∈ classify_categories ings ∨
          "carb" ∈ classify_categories ings) then ["needs_protein"]
       else []) ++
      (if "flavor" ∉ classify_categories ings then ["needs_flavor"]
       else []) ++
      (if ¬ ("liquid" ∈ classify_categories ings ∨
          "fat" ∈ classify_categories ings ∨ "olive oil" ∈ ings) then
        (if "liquid" ∉ classify_categories ings ∧ "olive oil" ∉ ings ∧
            "butter" ∉ ings ∧ "sesame oil" ∉ ings then ["needs_fat"]
         else [])
       else []) := rfl
  rw [h0, clause_block_or ings "aromatic" "veg" "needs_aromatic",
    clause_block_or ings "protein" "carb" "needs_protein",
    clause_block_single ings "flavor" "needs_flavor", fat_block_eq ings]

/-- C2 (amended): the evaluator returns `sufficient = true` iff the set has
an aromatic-or-veg ingredient, a protein-or-carb ingredient, a flavor
ingredient, and a liquid-or-fat ingredient or butter (the code's explicit
fat fallback; olive oil and sesame oil are already categorized liquid);
`missing` lists exactly the unmet clauses in policy order; and
`["chicken"]` is insufficient with the aromatic/veg, flavor and liquid/fat
clauses among the missing ones. -/
theorem C2_sufficiency_amended (ings : List String) :
    ((need_more_for_cook ings).1 = true ↔
      ((∃ i ∈ ings, inCat "aromatic" i ∨ inCat "veg" i) ∧
       (∃ i ∈ ings, inCat "protein" i ∨ inCat "carb" i) ∧
       (∃ i ∈ ings, inCat "flavor" i) ∧
       ((∃ i ∈ ings, inCat "liquid" i ∨ inCat "fat" i) ∨
         "butter" ∈ ings))) ∧
    ((need_more_for_cook ings).2.1 =
      (if ∃ i ∈ ings, inCat "aromatic" i ∨ inCat "veg" i then []
       else ["needs_aromatic"]) ++
      (if ∃ i ∈ ings, inCat "protein" i ∨ inCat "carb" i then []
       else ["needs_protein"]) ++
      (if ∃ i ∈ ings, inCat "flavor" i then [] else ["needs_flavor"]) ++
      (if (∃ i ∈ ings, inCat "liquid" i ∨ inCat "fat" i) ∨ "butter" ∈ ings
       then [] else ["needs_fat"])) ∧
    (need_more_for_cook ["chicken"]).1 = false ∧
    "needs_aromatic" ∈ (need_more_for_cook ["chicken"]).2.1 ∧
    "needs_flavor" ∈ (need_more_for_cook ["chicken"]).2.1 ∧
    "needs_fat" ∈ (need_more_for_cook ["chicken"]).2.1 := by
  refine ⟨?_, need_more_reasons_eq ings, by decide, by decide, by decide,
    by decide⟩
  show (need_more_for_cook ings).2.1.isEmpty = true ↔ _
  rw [need_more_reasons_eq ings]
  by_cases h1 : ∃ i ∈ ings, inCat "aromatic" i ∨ inCat "veg" i <;>
    by_cases h2 : ∃ i ∈ ings, inCat "protein" i ∨ inCat "carb" i <;>
    by_cases h3 : ∃ i ∈ ings, inCat "flavor" i <;>
    by_cases h4 : (∃ i ∈ ings, inCat "liquid" i ∨ inCat "fat" i) ∨
      "butter" ∈ ings <;>
    simp [h1, h2, h3, h4]

theorem dedupFirst_sublist (seen l : List String) :
    List.Sublist (dedupFirst seen l) l := by
  induction l generalizing seen with
  | nil => simp [dedupFirst]
  | cons y ys ih =>
    by_cases hy : y ∈ seen
    · simp only [dedupFirst, if_pos hy]
      exact List.Sublist.cons y (ih seen)
    · simp only [dedupFirst, if_neg hy]
      exact List.Sublist.cons₂ y (ih (y :: seen))

theorem mem_dedupFirst (seen l : List String) (x : String) :
    x ∈ dedupFirst seen l ↔ x ∈ l ∧ x ∉ seen := by
  induction l generalizing seen with
  | nil => simp [dedupFirst]
  | cons y ys ih =>
    by_cases hy : y ∈ seen
    · simp only [dedupFirst, if_pos hy, ih, List.mem_cons]
      constructor
      · rintro ⟨hm, hs⟩; exact ⟨Or.inr hm, hs⟩
      · rintro ⟨hm | hm, hs⟩
        · exact absurd (hm ▸ hy) hs
        · exact ⟨hm, hs⟩
    · simp only [dedupFirst, if_neg hy, List.mem_cons, ih]
      constructor
      · rintro (hm | ⟨hm, hs⟩)
        · exact ⟨Or.inl hm, hm ▸ hy⟩
        · exact ⟨Or.inr hm, fun hx => hs (Or.inr hx)⟩
      · rintro ⟨hm | hm, hs⟩
        · exact Or.inl hm
        · by_cases hxy : x = y
          · exact Or.inl hxy
          · refine Or.inr ⟨hm, ?_⟩
            rintro (h | h)
            · exact hxy h
            · exact hs h

theorem dedupFirst_nodup (seen l : List String) :
    (dedupFirst seen l).Nodup := by
  induction l generalizing seen with
  | nil => simp [dedupFirst]
  | cons y ys ih =>
    by_cases hy : y ∈ seen
    · simp only [dedupFirst, if_pos hy]
      exact ih seen
    · simp only [dedupFirst, if_neg hy]
      refine List.nodup_cons.mpr ⟨?_, ih (y :: seen)⟩
      intro hmem
      exact ((mem_dedupFirst (y :: seen) ys y).mp hmem).2
        (List.mem_cons_self y seen)

/-- C6: the suggestion list is built by appending, when some known bad
combo is fully contained in the ingredients, the combo remedy list
configured for it (the `"milk+pasta"` remedy entry — the single remedy
configured per combo in this prototype), then each missing requirement's
remedy list in reason order, and finally deduplicating while preserving
first-seen order, so the result is duplicate-free. -/
theorem C6_suggestion_generation (ings : List String) :
    ((need_more_for_cook ings).2.2 =
      dedupFirst []
        ((if (has_bad_combo ings).isSome then
            (alookup "milk+pasta" SUGGESTIONS).getD [] else []) ++
         (need_more_for_cook ings).2.1.flatMap
           (fun r => (alookup r SUGGESTIONS).getD []))) ∧
    ((has_bad_combo ings).isSome = true ↔
      ∃ combo ∈ BAD_COMBOS, ∀ x ∈ combo, x ∈ ings) ∧
    List.Sublist (need_more_for_cook ings).2.2
      ((if (has_bad_combo ings).isSome then
          (alookup "milk+pasta" SUGGESTIONS).getD [] else []) ++
       (need_more_for_cook ings).2.1.flatMap
         (fun r => (alookup r SUGGESTIONS).getD [])) ∧
    (∀ x, x ∈ (need_more_for_cook ings).2.2 ↔
      x ∈ (if (has_bad_combo ings).isSome then
          (alookup "milk+pasta" SUGGESTIONS).getD [] else []) ++
        (need_more_for_cook ings).2.1.flatMap
          (fun r => (alookup r SUGGESTIONS).getD [])) ∧
    (need_more_for_cook ings).2.2.Nodup := by
  have hdef : (need_more_for_cook ings).2.2 =
      dedupFirst []
        ((if (has_bad_combo ings).isSome then
            (alookup "milk+pasta" SUGGESTIONS).getD [] else []) ++
         (need_more_for_cook ings).2.1.flatMap
           (fun r => (alookup r SUGGESTIONS).getD [])) := rfl
  refine ⟨hdef, ?_, ?_, ?_, ?_⟩
  · simp [has_bad_combo, List.find?_isSome, List.all_eq_true]
  · rw [hdef]; exact dedupFirst_sublist _ _
  · intro x
    rw [hdef, mem_dedupFirst]
    simp
  · rw [hdef]; exact dedupFirst_nodup _ _

/-! ## Sufficiency Evaluator of supaniga2 (`CATEGORIES`, `MIN_REQUIRED`,
`categorize`, `sufficiency_report`, lines 119-141) -/

/-- `CATEGORIES` (supaniga2 lines 119-124). -/
def CATEGORIES : List (String × List String) := [
  ("protein", ["chicken", "beef", "pork", "egg", "tofu", "tempeh", "shrimp",
    "salmon", "tuna", "chickpeas", "lentils", "beans", "paneer", "ham",
    "bacon", "sausage"]),
  ("carb", ["rice", "jasmine rice", "basmati rice", "noodles", "pasta",
    "spaghetti", "tortilla", "bread", "quinoa", "couscous", "udon", "soba",
    "ramen noodles", "potato"]),
  ("flavor", ["soy sauce", "fish sauce", "oyster sauce", "tomato paste",
    "curry paste", "curry powder", "turmeric", "cumin", "coriander",
    "paprika", "chili powder", "garam masala", "vinegar",
    "balsamic vinegar", "miso", "gochujang", "sriracha", "tahini"]),
  ("veg", ["tomato", "onion", "garlic", "ginger", "carrot", "spinach",
    "broccoli", "bell pepper", "mushroom", "olive", "capers", "pickles",
    "nori"])]

/-- `MIN_REQUIRED` (supaniga2 line 125). -/
def MIN_REQUIRED : List (String × Nat) := [
  ("protein", 1), ("carb", 1), ("flavor", 1), ("veg", 1)]

/-- `categorize(ing)` (supaniga2 lines 127-132): the category keys whose
set holds the ingredient. -/
def categorize (ing : String) : List String :=
  (CATEGORIES.filter (fun p => decide (ing ∈ p.2))).map (fun p => p.1)

/-- The per-key count accumulated by the `have[k] += 1` loop of
`sufficiency_report` (supaniga2 lines 136-138): the number of list entries
(duplicates included) categorized `k`. -/
def haveCount (ings : List String) (k : String) : Nat :=
  ings.countP (fun ing => decide (k ∈ categorize ing))

/-- `sufficiency_report(ings)` (supaniga2 lines 134-141): returns
`(ok, have, missing)` with `missing[k] = max(0, MIN_REQUIRED[k] - have[k])`
(truncated subtraction) and `ok` iff every missing count is zero. -/
def sufficiency_report (ings : List String) :
    Bool × List (String × Nat) × List (String × Nat) :=
  let have_ := CATEGORIES.map (fun p => (p.1, haveCount ings p.1))
  let missing := MIN_REQUIRED.map (fun p => (p.1, p.2 - haveCount ings p.1))
  (missing.all (fun p => decide (p.2 = 0)), have_, missing)

example : (sufficiency_report ["chicken"]).1 = false := by decide
example :
    (sufficiency_report ["chicken", "rice", "miso", "garlic"]) =
      (true,
       [("protein", 1), ("carb", 1), ("flavor", 1), ("veg", 1)],
       [("protein", 0), ("carb", 0), ("flavor", 0), ("veg", 0)]) := by decide

theorem mem_ite_nil_singleton {c : Prop} [Decidable c] {r k : String} :
    r ∈ (if c then ([] : List String) else [k]) ↔ ¬ c ∧ r = k := by
  by_cases hc : c <;> simp [hc]

theorem ite_nil_eq_nil {c : Prop} [Decidable c] {k : String} :
    (if c then ([] : List String) else [k]) = [] ↔ c := by
  by_cases hc : c <;> simp [hc]

theorem sufficiency_report_ok_iff (ings : List String) :
    (sufficiency_report ings).1 = true ↔
      ∀ p ∈ MIN_REQUIRED, p.2 - haveCount ings p.1 = 0 := by
  show (List.all _ _) = true ↔ _
  rw [List.all_eq_true]
  constructor
  · intro hall p hp
    have := hall (p.1, p.2 - haveCount ings p.1)
      (List.mem_map.mpr ⟨p, hp, rfl⟩)
    exact of_decide_eq_true this
  · intro hall q hq
    rcases List.mem_map.mp hq with ⟨p, hp, hpq⟩
    rw [← hpq]
    exact decide_eq_true (hall p hp)

theorem haveCount_pos_mono (S S' : List String)
    (h : ∀ x ∈ S, x ∈ S') (k : String) (hpos : 0 < haveCount S k) :
    0 < haveCount S' k := by
  rcases List.countP_pos_iff.mp hpos with ⟨i, hi, hp⟩
  exact List.countP_pos_iff.mpr ⟨i, h i hi, hp⟩

/-- C8: sufficiency evaluation is monotone.  Growing the ingredient list
cannot increase any clause's missing count in `sufficiency_report`
(supaniga2), cannot turn its `ok` from true to false, cannot add a missing
reason in `need_more_for_cook` (supaniga3), and cannot turn its `enough`
from true to false. -/
theorem C8_monotonic_sufficiency (S S' : List String)
    (h : ∀ x ∈ S, x ∈ S') :
    (∀ p ∈ MIN_REQUIRED,
      p.2 - haveCount S' p.1 ≤ p.2 - haveCount S p.1) ∧
    ((sufficiency_report S).1 = true → (sufficiency_report S').1 = true) ∧
    (∀ r ∈ (need_more_for_cook S').2.1, r ∈ (need_more_for_cook S).2.1) ∧
    ((need_more_for_cook S).1 = true → (need_more_for_cook S').1 = true) := by
  have hone : ∀ p ∈ MIN_REQUIRED, p.2 = 1 := by decide
  have hmiss : ∀ p ∈ MIN_REQUIRED,
      p.2 - haveCount S' p.1 ≤ p.2 - haveCount S p.1 := by
    intro p hp
    have h1 := hone p hp
    rcases Nat.eq_zero_or_pos (haveCount S p.1) with hz | hpos
    · rw [hz, h1]
      omega
    · have := haveCount_pos_mono S S' h p.1 hpos
      omega
  have hex : ∀ P : String → Prop,
      (∃ i ∈ S, P i) → ∃ i ∈ S', P i := by
    rintro P ⟨i, hi, hp⟩
    exact ⟨i, h i hi, hp⟩
  have hc1 : (∃ i ∈ S, inCat "aromatic" i ∨ inCat "veg" i) →
      ∃ i ∈ S', inCat "aromatic" i ∨ inCat "veg" i := hex _
  have hc2 : (∃ i ∈ S, inCat "protein" i ∨ inCat "carb" i) →
      ∃ i ∈ S', inCat "protein" i ∨ inCat "carb" i := hex _
  have hc3 : (∃ i ∈ S, inCat "flavor" i) →
      ∃ i ∈ S', inCat "flavor" i := hex _
  have hc4 : ((∃ i ∈ S, inCat "liquid" i ∨ inCat "fat" i) ∨
      "butter" ∈ S) →
      (∃ i ∈ S', inCat "liquid" i ∨ inCat "fat" i) ∨ "butter" ∈ S' := by
    rintro (hs | hb)
    · exact Or.inl (hex _ hs)
    · exact Or.inr (h _ hb)
  refine ⟨hmiss, ?_, ?_, ?_⟩
  · intro hok
    rw [sufficiency_report_ok_iff] at hok ⊢
    intro p hp
    have := hmiss p hp
    have := hok p hp
    omega
  · intro r hr
    rw [need_more_reasons_eq] at hr ⊢
    simp only [List.mem_append] at hr ⊢
    rcases hr with ((hr | hr) | hr) | hr
    · rcases mem_ite_nil_singleton.mp hr with ⟨hnc, hrk⟩
      exact Or.inl (Or.inl (Or.inl (mem_ite_nil_singleton.mpr
        ⟨fun hc => hnc (hc1 hc), hrk⟩)))
    · rcases mem_ite_nil_singleton.mp hr with ⟨hnc, hrk⟩
      exact Or.inl (Or.inl (Or.inr (mem_ite_nil_singleton.mpr
        ⟨fun hc => hnc (hc2 hc), hrk⟩)))
    · rcases mem_ite_nil_singleton.mp hr with ⟨hnc, hrk⟩
      exact Or.inl (Or.inr (mem_ite_nil_singleton.mpr
        ⟨fun hc => hnc (hc3 hc), hrk⟩))
    · rcases mem_ite_nil_singleton.mp hr with ⟨hnc, hrk⟩
      exact Or.inr (mem_ite_nil_singleton.mpr
        ⟨fun hc => hnc (hc4 hc), hrk⟩)
  · intro hen
    have hSe : (need_more_for_cook S).2.1.isEmpty = true := hen
    have hS'e : (need_more_for_cook S').2.1 = [] := by
      rw [List.isEmpty_iff] at hSe
      rw [need_more_reasons_eq] at hSe ⊢
      rcases List.append_eq_nil.mp hSe with ⟨hSe, h4⟩
      rcases List.append_eq_nil.mp hSe with ⟨hSe, h3⟩
      rcases List.append_eq_nil.mp hSe with ⟨h1, h2⟩
      rw [ite_nil_eq_nil] at h1 h2 h3 h4
      rw [ite_nil_eq_nil.mpr (hc1 h1), ite_nil_eq_nil.mpr (hc2 h2),
        ite_nil_eq_nil.mpr (hc3 h3), ite_nil_eq_nil.mpr (hc4 h4)]
      rfl
    show (need_more_for_cook S').2.1.isEmpty = true
    rw [hS'e]
    rfl

/-- Witness for C8 at `S = ["chicken"]`, `S' = ["chicken", "garlic"]`. -/
theorem C8_monotonic_sufficiency_witness :
    (∀ p ∈ MIN_REQUIRED,
      p.2 - haveCount ["chicken", "garlic"] p.1 ≤
        p.2 - haveCount ["chicken"] p.1) ∧
    ((sufficiency_report ["chicken"]).1 = true →
      (sufficiency_report ["chicken", "garlic"]).1 = true) ∧
    (∀ r ∈ (need_more_for_cook ["chicken", "garlic"]).2.1,
      r ∈ (need_more_for_cook ["chicken"]).2.1) ∧
    ((need_more_for_cook ["chicken"]).1 = true →
      (need_more_for_cook ["chicken", "garlic"]).1 = true) :=
  C8_monotonic_sufficiency ["chicken"] ["chicken", "garlic"] (by decide)

/-! ## Cuisine Inference Engine (part_000: `CUISINE_HINTS`,
`infer_cuisine`, the `confident` gate and the header-flag rule,
lines 70-88, 125-139, 313-328) -/

/-- `CUISINE_HINTS` (part_000 lines 70-78): weighted ingredient hints per
cuisine, in source order. -/
def CUISINE_HINTS : List (String × List (String × Nat)) := [
  ("Italian", [("tomato", 1), ("basil", 1), ("olive oil", 1),
    ("parmesan", 2), ("mozzarella", 2), ("pasta", 2), ("spaghetti", 2),
    ("balsamic vinegar", 1)]),
  ("Thai", [("fish sauce", 2), ("lime", 1), ("chili", 1), ("garlic", 1),
    ("coconut milk", 2), ("basil", 1), ("jasmine rice", 2)]),
  ("Indian", [("garam masala", 2), ("turmeric", 1), ("cumin", 1),
    ("coriander", 1), ("ghee", 1), ("basmati rice", 2), ("paneer", 2)]),
  ("Japanese", [("soy sauce", 1), ("miso", 2), ("nori", 2),
    ("sesame oil", 1), ("ginger", 1), ("rice", 1)]),
  ("Mexican", [("tortilla", 2), ("chili powder", 1), ("cumin", 1),
    ("lime", 1), ("beans", 1), ("corn", 1), ("cilantro", 1)]),
  ("Chinese", [("soy sauce", 1), ("oyster sauce", 2), ("ginger", 1),
    ("garlic", 1), ("sesame oil", 1), ("noodles", 2)]),
  ("Middle Eastern", [("tahini", 2), ("cumin", 1), ("coriander", 1),
    ("yogurt", 1), ("olive oil", 1)])]

/-- The per-cuisine score loop of `infer_cuisine` (part_000 lines
130-133): the sum of the weights of the hint entries present in the
ingredient list (each distinct hint ingredient counted once, since hints
are dict keys). -/
def cuisineScore (ings : List String) (hints : List (String × Nat)) : Nat :=
  ((hints.filter (fun p => decide (p.1 ∈ ings))).map (fun p => p.2)).sum

/-- `infer_cuisine(ings)` (part_000 lines 125-139): keep the cuisines with
positive score (in hint-table order, as Python dicts preserve insertion
order), return `(None, 0)` when there are none, else the first cuisine of
maximal score (Python `max` keeps the first maximal key). -/
def infer_cuisine (ings : List String) : Option String × Nat :=
  let scores := (CUISINE_HINTS.map
      (fun p => (p.1, cuisineScore ings p.2))).filter
    (fun p => decide (0 < p.2))
  match scores with
  | [] => (none, 0)
  | s :: ss =>
    let best := bestBy ss s
    (some best.1, best.2)

/-- `confident = bool(cuisine and score >= 3)` (part_000 line 314). -/
def confident (r : Option String × Nat) : Bool :=
  r.1.isSome && decide (3 ≤ r.2)

/-- `CUISINE_COUNTRY` (part_000 lines 80-88): ISO-2 code and country name
per cuisine; `Middle Eastern` is a region with no single country. -/
def CUISINE_COUNTRY : List (String × (Option String × Option String)) := [
  ("Italian", (some "IT", some "Italy")),
  ("Thai", (some "TH", some "Thailand")),
  ("Indian", (some "IN", some "India")),
  ("Japanese", (some "JP", some "Japan")),
  ("Mexican", (some "MX", some "Mexico")),
  ("Chinese", (some "CN", some "China")),
  ("Middle Eastern", (none, none))]

/-- Flag-emission decision of the recipe header (part_000 lines 324-328):
`if confident and cuisine in CUISINE_COUNTRY and CUISINE_COUNTRY[cuisine][0]`
— a flag is rendered only when the inference is confident and the cuisine's
country entry holds a truthy (non-empty) ISO-2 code. -/
def header_flag_shown (ings : List String) : Bool :=
  let r := infer_cuisine ings
  confident r &&
    (((r.1.bind (fun c => alookup c CUISINE_COUNTRY)).bind
        (fun p => p.1)).elim false (fun iso => decide (iso ≠ "")))

theorem bestBy_ge_all (s : String × Nat) (ss : List (String × Nat)) :
    ∀ q ∈ s :: ss, q.2 ≤ (bestBy ss s).2 := by
  intro q hq
  rcases List.mem_cons.mp hq with h | h
  · rw [h]; exact bestBy_ge_init ss s
  · exact bestBy_ge_mem ss s q h

theorem bestBy_mem_cons (s : String × Nat) (ss : List (String × Nat)) :
    bestBy ss s ∈ s :: ss := by
  rcases bestBy_mem ss s with h | h
  · rw [h]; exact List.mem_cons_self s ss
  · exact List.mem_cons_of_mem _ h

/-- C4: cuisine inference sums, per cuisine, the profile weight of each
distinct ingredient present; it returns `(none, 0)` when no cuisine has a
matching ingredient, otherwise a cuisine of maximum total score together
with that score; the result is never flagged confident when the winning
score is below the threshold 3 (and is confident exactly at score ≥ 3);
and on `["garam masala","basmati rice"]` it yields Indian with score 4,
confidently. -/
theorem C4_cuisine_inference (ings : List String) :
    ((∀ p ∈ CUISINE_HINTS, cuisineScore ings p.2 = 0) →
      infer_cuisine ings = (none, 0)) ∧
    ((infer_cuisine ings).1 = none → (infer_cuisine ings).2 = 0) ∧
    (∀ c, (infer_cuisine ings).1 = some c →
      (∃ hints, (c, hints) ∈ CUISINE_HINTS ∧
        (infer_cuisine ings).2 = cuisineScore ings hints ∧
        0 < (infer_cuisine ings).2) ∧
      ∀ p ∈ CUISINE_HINTS, cuisineScore ings p.2 ≤ (infer_cuisine ings).2) ∧
    (confident (infer_cuisine ings) = true ↔ 3 ≤ (infer_cuisine ings).2) ∧
    infer_cuisine ["garam masala", "basmati rice"] = (some "Indian", 4) ∧
    confident (infer_cuisine ["garam masala", "basmati rice"]) = true := by
  cases hsc : (CUISINE_HINTS.map
      (fun p => (p.1, cuisineScore ings p.2))).filter
    (fun p => decide (0 < p.2)) with
  | nil =>
    have hinf : infer_cuisine ings = (none, 0) := by
      simp [infer_cuisine, hsc]
    refine ⟨fun _ => hinf, fun _ => by rw [hinf], ?_, ?_, by decide,
      by decide⟩
    · intro c hc
      rw [hinf] at hc
      exact Option.noConfusion hc
    · rw [hinf, confident]
      simp
  | cons s ss =>
    have hinf : infer_cuisine ings =
        (some (bestBy ss s).1, (bestBy ss s).2) := by
      simp [infer_cuisine, hsc]
    have hbmem : bestBy ss s ∈
        (CUISINE_HINTS.map (fun p => (p.1, cuisineScore ings p.2))).filter
          (fun p => decide (0 < p.2)) := by
      rw [hsc]; exact bestBy_mem_cons s ss
    rcases List.mem_filter.mp hbmem with ⟨hbmap, hbpos⟩
    rcases List.mem_map.mp hbmap with ⟨p, hp, hpb⟩
    have hbpos' : 0 < (bestBy ss s).2 := of_decide_eq_true hbpos
    refine ⟨?_, ?_, ?_, ?_, by decide, by decide⟩
    · intro hall
      have : (bestBy ss s).2 = 0 := by
        rw [← hpb]
        exact hall p hp
      omega
    · intro hnone
      rw [hinf] at hnone
      exact Option.noConfusion hnone
    · intro c hc
      rw [hinf] at hc
      simp only [Option.some.injEq] at hc
      constructor
      · refine ⟨p.2, ?_, ?_, by rw [hinf]; exact hbpos'⟩
        · have : (c, p.2) = p := by
            rw [← hc, ← hpb]
          rw [this]
          exact hp
        · rw [hinf]
          show (bestBy ss s).2 = cuisineScore ings p.2
          rw [← hpb]
      · intro q hq
        rw [hinf]
        show cuisineScore ings q.2 ≤ (bestBy ss s).2
        rcases Nat.eq_zero_or_pos (cuisineScore ings q.2) with hz | hqpos
        · rw [hz]; exact Nat.zero_le _
        · have hqmem : (q.1, cuisineScore ings q.2) ∈
              (CUISINE_HINTS.map
                (fun p => (p.1, cuisineScore ings p.2))).filter
                (fun p => decide (0 < p.2)) :=
            List.mem_filter.mpr ⟨List.mem_map.mpr ⟨q, hq, rfl⟩,
              decide_eq_true hqpos⟩
          rw [hsc] at hqmem
          exact bestBy_ge_all s ss _ hqmem
    · rw [hinf, confident]
      simp

/-- C7: when the inferred cuisine's `CUISINE_COUNTRY` entry is
`(None, None)` — as for "Middle Eastern" — no country flag is emitted even
when the inference is confident; a flag is shown only for a confident
inference whose cuisine has a non-null country code.  On
`["tahini","cumin"]` the inference is a confident "Middle Eastern" and no
flag is shown. -/
theorem C7_regional_cuisine_no_flag (ings : List String) :
    (∀ c, (infer_cuisine ings).1 = some c →
      alookup c CUISINE_COUNTRY = some (none, none) →
      header_flag_shown ings = false) ∧
    (header_flag_shown ings = true →
      confident (infer_cuisine ings) = true ∧
      ∃ c iso nm, (infer_cuisine ings).1 = some c ∧
        alookup c CUISINE_COUNTRY = some (some iso, nm) ∧ iso ≠ "") ∧
    infer_cuisine ["tahini", "cumin"] = (some "Middle Eastern", 3) ∧
    confident (infer_cuisine ["tahini", "cumin"]) = true ∧
    header_flag_shown ["tahini", "cumin"] = false := by
  refine ⟨?_, ?_, by decide, by decide, by decide⟩
  · intro c hc hcc
    simp [header_flag_shown, hc, hcc]
  · intro hshown
    have hsplit := Bool.and_eq_true_iff.mp hshown
    refine ⟨hsplit.1, ?_⟩
    have hm := hsplit.2
    cases hr1 : (infer_cuisine ings).1 with
    | none => rw [hr1] at hm; simp at hm
    | some c =>
      rw [hr1] at hm
      simp only [Option.some_bind] at hm
      cases hcc : alookup c CUISINE_COUNTRY with
      | none => rw [hcc] at hm; simp at hm
      | some p =>
        rcases p with ⟨iso?, nm⟩
        rw [hcc] at hm
        simp only [Option.some_bind] at hm
        cases iso? with
        | none => simp at hm
        | some iso =>
          simp only [Option.elim_some, decide_eq_true_eq] at hm
          exact ⟨c, iso, nm, rfl, hcc, hm⟩

/-! ## Input-slot growth (the ingredient slot loops: part_000 lines
277-286, supaniga2 lines 275-283, supaniga3 lines 258-265) -/

/-- The acceptance test stored per slot
(`ingredients_valid[i] = is_valid and bool(val.strip())`): the slot text
resolves to Exact or FuzzyAccepted and is non-empty after stripping. -/
def slotAccepts (sim : StrSim) (catalog : List String) (v : String) : Bool :=
  (validate_ingredient sim v catalog).1 &&
    decide (String.mk (pyStrip v.data) ≠ "")

/-- One evaluation pass over the ordered input slots: the loop walks the
slots in order and, only at the last slot and only when that slot is
accepted and non-empty, appends exactly one new empty slot (the
`more_possible` / `added_this_run` flags and the re-evaluated length check
make at most one append per pass). -/
def slotPass (accept : String → Bool) : List String → List String
  | [] => []
  | [x] => if accept x then [x, ""] else [x]
  | x :: y :: xs => x :: slotPass accept (y :: xs)

theorem slotPass_cons_of_ne_nil (accept : String → Bool) (x : String)
    (rest : List String) (h : rest ≠ []) :
    slotPass accept (x :: rest) = x :: slotPass accept rest := by
  cases rest with
  | nil => exact absurd rfl h
  | cons y ys => rfl

theorem slotPass_append_last (accept : String → Bool) (pre : List String)
    (x : String) :
    slotPass accept (pre ++ [x]) = pre ++ slotPass accept [x] := by
  induction pre with
  | nil => rfl
  | cons p ps ih =>
    rw [List.cons_append,
      slotPass_cons_of_ne_nil accept p (ps ++ [x]) (by simp), ih,
      List.cons_append]

/-- C9: one evaluation pass appends at most one new slot; it appends
exactly one empty slot iff the last slot's text is accepted (Exact or
fuzzy-accepted, non-empty); and the pass acts on any slot list ending in
`x` as the untouched prefix followed by the pass on `[x]` alone, so an
accepted value in an earlier slot never causes an append. -/
theorem C9_slot_append (sim : StrSim) (catalog : List String)
    (raws : List String) :
    ((slotPass (slotAccepts sim catalog) raws).length ≤ raws.length + 1) ∧
    (slotPass (slotAccepts sim catalog) raws = raws ∨
      slotPass (slotAccepts sim catalog) raws = raws ++ [""]) ∧
    (slotPass (slotAccepts sim catalog) raws = raws ++ [""] ↔
      ∃ x, raws.getLast? = some x ∧ slotAccepts sim catalog x = true) ∧
    (∀ pre x, raws = pre ++ [x] →
      slotPass (slotAccepts sim catalog) raws =
        pre ++ slotPass (slotAccepts sim catalog) [x]) := by
  rcases List.eq_nil_or_concat raws with hnil | ⟨L, b, hcat⟩
  · subst hnil
    refine ⟨by simp [slotPass], Or.inl rfl, ?_, ?_⟩
    · constructor
      · intro h
        exact absurd (congrArg List.length h) (by simp [slotPass])
      · rintro ⟨x, hx, _⟩
        exact Option.noConfusion hx
    · intro pre x h
      exact absurd (congrArg List.length h) (by simp)
  · rw [List.concat_eq_append] at hcat
    subst hcat
    have happ := slotPass_append_last (slotAccepts sim catalog) L b
    have hlast : (L ++ [b]).getLast? = some b := List.getLast?_concat L
    by_cases hacc : slotAccepts sim catalog b = true
    · have hone : slotPass (slotAccepts sim catalog) [b] = [b, ""] := by
        simp [slotPass, hacc]
      have hfull : slotPass (slotAccepts sim catalog) (L ++ [b]) =
          (L ++ [b]) ++ [""] := by
        rw [happ, hone, List.append_assoc]
        rfl
      refine ⟨by rw [hfull]; simp, Or.inr hfull, ?_, ?_⟩
      · exact ⟨fun _ => ⟨b, hlast, hacc⟩, fun _ => hfull⟩
      · intro pre x h
        rw [h] at happ ⊢
        have hpx : L = pre ∧ b = x := by
          have := List.append_inj' h rfl
          simpa using this
        rw [← hpx.1, ← hpx.2]
        exact slotPass_append_last _ L b
    · have hone : slotPass (slotAccepts sim catalog) [b] = [b] := by
        simp [slotPass, hacc]
      have hfull : slotPass (slotAccepts sim catalog) (L ++ [b]) =
          L ++ [b] := by
        rw [happ, hone]
      refine ⟨by rw [hfull]; simp, Or.inl hfull, ?_, ?_⟩
      · constructor
        · intro h
          rw [hfull] at h
          exact absurd (congrArg List.length h) (by simp)
        · rintro ⟨x, hx, hxa⟩
          rw [hlast] at hx
          rcases Option.some.injEq .. ▸ hx with rfl
          exact absurd hxa hacc
      · intro pre x h
        have hpx : L = pre ∧ b = x := by
          have := List.append_inj' h rfl
          simpa using this
        rw [h, ← hpx.1, ← hpx.2]
        exact slotPass_append_last _ L b

end Supaniga
